import Mathlib

set_option maxRecDepth 4000

/-!
Verification of the domain-gating and tool-handler subsystem of an
MCP server for a project-management platform.

The development shallowly embeds:
* the `DomainsManager` component (selector parsing and domain resolution),
* the `pipelines_run_pipeline`, `pipelines_update_build_stage` and
  `pipelines_get_build_log` tool handlers,
* the `repo_update_pull_request` tool handler.

JavaScript strings are embedded as Lean `String`s; the JS string
operations used by the code (`trim`, `toLowerCase`, `split(",")`,
`includes(",")`) are defined below over `String.data` so that they are
executable and provable.  JS `Set` objects are embedded as
insertion-ordered duplicate-free lists, JS `Map` objects as ordered
association lists with overwrite-in-place semantics.  Asynchronous
handlers are embedded as pure functions from their validated input and
the (abstract) backend responses to their result, paired with the list
of backend operations they invoke; a thrown JS error is an
`Except.error` carrying the error message.
-/

/-- JS `String.prototype.toLowerCase` (ASCII case folding, which covers
every string the code manipulates). -/
def jsToLowerCase (s : String) : String :=
  String.mk (s.data.map Char.toLower)

/-- Leading- and trailing-whitespace removal on a character list. -/
def trimCharList (l : List Char) : List Char :=
  ((l.dropWhile Char.isWhitespace).reverse.dropWhile Char.isWhitespace).reverse

/-- JS `String.prototype.trim`. -/
def jsTrim (s : String) : String :=
  String.mk (trimCharList s.data)

/-- JS `s.split(",")`. -/
def jsSplitOnComma (s : String) : List String :=
  (s.data.splitOn ',').map String.mk

/-- JS `s.includes(",")`. -/
def jsIncludesComma (s : String) : Bool :=
  s.data.contains ','

/-- The normalization `d.trim().toLowerCase()` applied to every selector
token. -/
def normalizeToken (s : String) : String :=
  jsToLowerCase (jsTrim s)

/-- JS `Set.prototype.add` on an insertion-ordered list model of a set:
appends the element unless already present. -/
def setAdd (s : List String) (x : String) : List String :=
  if s.contains x then s else s ++ [x]

/-- A Domain Selector that is present: either a single string or an
array of strings.  An omitted / `undefined` / `null` selector is
`Option.none` at the use sites. -/
inductive DomainsInput where
  | str (s : String)
  | arr (l : List String)
deriving DecidableEq

/-- Modelled from the spec: the fixed 9-member domain catalog
(`DomainsManager.getAvailableDomains`), in canonical declaration order.
The implementation file `src/shared/domains.ts` is not part of the
sources at hand (only its test suite is); the catalog is fixed by the
spec and pinned element-for-element by the test suite. -/
def AVAILABLE_DOMAINS : List String :=
  ["advanced-security", "pipelines", "core", "repositories", "search",
   "test-plans", "wiki", "work", "work-items"]

/-- Modelled from the spec: the sentinel token that enables every
domain. -/
def ALL_DOMAINS : String := "all"

/-- `", "`-joining of a string list (JS `Array.prototype.join(", ")`),
used by the invalid-domain diagnostic. -/
def joinCommaSpace : List String → String
  | [] => ""
  | [t] => t
  | t :: u :: ts => t ++ ", " ++ joinCommaSpace (u :: ts)

/-- Modelled from the spec: the diagnostic emitted (via the logging
collaborator) for one invalid selector token, naming the token and the
full valid catalog.  The exact wording is pinned by the test suite of
`DomainsManager`. -/
def invalidDomainMessage (t : String) : String :=
  "Error: Specified invalid domain '" ++ t ++
    "'. Please specify exactly as available domains: " ++
    joinCommaSpace AVAILABLE_DOMAINS

/-- Modelled from the spec: `DomainsManager.parseDomainsInput`.
Normalizes any accepted selector shape into a flat sequence of trimmed,
lowercased tokens: an omitted/null selector yields the empty sequence; a
string containing a comma is split on commas with empty pieces dropped;
any other string is a single token (the empty string yields `[""]`); an
array is normalized element-wise with no de-duplication. -/
def parseDomainsInput : Option DomainsInput → List String
  | none => []
  | some (.str s) =>
      if jsIncludesComma s then
        ((jsSplitOnComma s).map normalizeToken).filter (fun t => t ≠ "")
      else
        [normalizeToken s]
  | some (.arr l) => l.map normalizeToken

/-- One step of the validation fold of the resolution algorithm: a valid
token is added to the accumulating result set, an invalid one appends a
diagnostic. -/
def validateStep (acc : List String × List String) (t : String) :
    List String × List String :=
  if AVAILABLE_DOMAINS.contains t then (setAdd acc.1 t, acc.2)
  else (acc.1, acc.2 ++ [invalidDomainMessage t])

/-- Modelled from the spec: `validateAndAddDomains` over a non-empty
token sequence.  An `"all"` token short-circuits to the full catalog;
otherwise tokens are validated in order, and if no token was valid the
result falls back to the full catalog.  The second component collects
the diagnostics emitted to the logging collaborator. -/
def validateAndAddDomains (tokens : List String) :
    List String × List String :=
  if tokens.contains ALL_DOMAINS then (AVAILABLE_DOMAINS, [])
  else
    let r := tokens.foldl validateStep ([], [])
    if r.1.isEmpty then (AVAILABLE_DOMAINS, r.2) else r

/-- The observable state of a constructed `DomainsManager`: its Enabled
Domain Set (insertion-ordered, duplicate-free) together with the
diagnostics emitted to the logging collaborator during construction. -/
structure DomainsManager where
  enabledDomains : List String
  diagnostics : List String
deriving DecidableEq

/-- Modelled from the spec: the `DomainsManager` constructor.  Parses
the selector; an empty token sequence enables the full catalog,
otherwise the token sequence is resolved by `validateAndAddDomains`.
The constructor is a total function: construction never fails and never
terminates the process. -/
def DomainsManager.construct (selector : Option DomainsInput) : DomainsManager :=
  let T := parseDomainsInput selector
  if T.isEmpty then ⟨AVAILABLE_DOMAINS, []⟩
  else
    let r := validateAndAddDomains T
    ⟨r.1, r.2⟩

/-- `DomainsManager.isDomainEnabled`: case-sensitive membership in the
stored set. -/
def DomainsManager.isDomainEnabled (m : DomainsManager) (name : String) : Bool :=
  m.enabledDomains.contains name

/-- C1: an omitted/undefined/null selector, the empty-string selector
and the empty-array selector all construct a manager whose Enabled
Domain Set is the full 9-member catalog, and construction is a total
function (it never fails). -/
theorem c1_empty_selectors_enable_full_catalog :
    (DomainsManager.construct none).enabledDomains = AVAILABLE_DOMAINS ∧
    (DomainsManager.construct (some (.str ("")))).enabledDomains = AVAILABLE_DOMAINS ∧
    (DomainsManager.construct (some (.arr []))).enabledDomains = AVAILABLE_DOMAINS ∧
    AVAILABLE_DOMAINS.length = 9 ∧
    AVAILABLE_DOMAINS = ["advanced-security", "pipelines", "core", "repositories",
      "search", "test-plans", "wiki", "work", "work-items"] := by
  refine ⟨rfl, by decide, rfl, rfl, rfl⟩

lemma contains_iff_mem {l : List String} {x : String} :
    l.contains x = true ↔ x ∈ l :=
  List.elem_iff

lemma mem_setAdd {s : List String} {x t : String} :
    x ∈ setAdd s t ↔ x ∈ s ∨ x = t := by
  by_cases h : t ∈ s
  · simp only [setAdd]
    rw [if_pos (contains_iff_mem.mpr h)]
    exact ⟨Or.inl, fun hx => hx.elim id (fun he => he ▸ h)⟩
  · simp only [setAdd]
    rw [if_neg (fun hc => h (contains_iff_mem.mp hc))]
    simp

lemma nodup_setAdd {s : List String} {t : String} (hs : s.Nodup) :
    (setAdd s t).Nodup := by
  by_cases h : t ∈ s
  · simp only [setAdd]
    rw [if_pos (contains_iff_mem.mpr h)]
    exact hs
  · simp only [setAdd]
    rw [if_neg (fun hc => h (contains_iff_mem.mp hc))]
    exact List.nodup_append.mpr
      ⟨hs, List.nodup_singleton t, fun a ha hb => h ((List.mem_singleton.mp hb) ▸ ha)⟩

lemma foldl_validateStep_snd (tokens : List String) (s d : List String) :
    (tokens.foldl validateStep (s, d)).2 =
      d ++ (tokens.filter (fun t => !(AVAILABLE_DOMAINS.contains t))).map
        invalidDomainMessage := by
  induction tokens generalizing s d with
  | nil => simp
  | cons t ts ih =>
    by_cases h : t ∈ AVAILABLE_DOMAINS
    · simp [validateStep, h, ih, List.filter_cons]
    · simp [validateStep, h, ih, List.filter_cons]

lemma foldl_validateStep_fst_mem (tokens : List String) (s d : List String)
    (x : String) :
    x ∈ (tokens.foldl validateStep (s, d)).1 ↔
      x ∈ s ∨ (x ∈ tokens ∧ x ∈ AVAILABLE_DOMAINS) := by
  induction tokens generalizing s d with
  | nil => simp
  | cons t ts ih =>
    by_cases h : t ∈ AVAILABLE_DOMAINS
    · rw [List.foldl_cons]
      simp only [validateStep]
      rw [if_pos (contains_iff_mem.mpr h), ih, mem_setAdd]
      constructor
      · rintro ((hx | rfl) | ⟨hts, hv⟩)
        · exact Or.inl hx
        · exact Or.inr ⟨List.mem_cons_self _ _, h⟩
        · exact Or.inr ⟨List.mem_cons_of_mem _ hts, hv⟩
      · rintro (hx | ⟨htts, hv⟩)
        · exact Or.inl (Or.inl hx)
        · rcases List.mem_cons.mp htts with rfl | hts
          · exact Or.inl (Or.inr rfl)
          · exact Or.inr ⟨hts, hv⟩
    · rw [List.foldl_cons]
      simp only [validateStep]
      rw [if_neg (fun hc => h (contains_iff_mem.mp hc)), ih]
      constructor
      · rintro (hx | ⟨hts, hv⟩)
        · exact Or.inl hx
        · exact Or.inr ⟨List.mem_cons_of_mem _ hts, hv⟩
      · rintro (hx | ⟨htts, hv⟩)
        · exact Or.inl hx
        · rcases List.mem_cons.mp htts with rfl | hts
          · exact absurd hv h
          · exact Or.inr ⟨hts, hv⟩

lemma foldl_validateStep_fst_nodup (tokens : List String) (s d : List String)
    (hs : s.Nodup) :
    (tokens.foldl validateStep (s, d)).1.Nodup := by
  induction tokens generalizing s d with
  | nil => simpa
  | cons t ts ih =>
    rw [List.foldl_cons]
    simp only [validateStep]
    by_cases h : t ∈ AVAILABLE_DOMAINS
    · rw [if_pos (contains_iff_mem.mpr h)]
      exact ih _ _ (nodup_setAdd hs)
    · rw [if_neg (fun hc => h (contains_iff_mem.mp hc))]
      exact ih _ _ hs

/-- C2: a selector containing a token that normalizes to the sentinel
`"all"` — in any letter case, at any position, in string or array form,
regardless of co-occurring valid or invalid tokens — resolves to the
full 9-member catalog. -/
theorem c2_all_sentinel_enables_full_catalog :
    (∀ sel : Option DomainsInput, ALL_DOMAINS ∈ parseDomainsInput sel →
      (DomainsManager.construct sel).enabledDomains = AVAILABLE_DOMAINS) ∧
    (∀ (l : List String) (t : String), t ∈ l → normalizeToken t = ALL_DOMAINS →
      (DomainsManager.construct (some (.arr l))).enabledDomains = AVAILABLE_DOMAINS) := by
  have main : ∀ sel : Option DomainsInput, ALL_DOMAINS ∈ parseDomainsInput sel →
      (DomainsManager.construct sel).enabledDomains = AVAILABLE_DOMAINS := by
    intro sel h
    have hne : parseDomainsInput sel ≠ [] := List.ne_nil_of_mem h
    have hemp : (parseDomainsInput sel).isEmpty = false := by
      simpa [List.isEmpty_iff] using hne
    simp [DomainsManager.construct, hemp, validateAndAddDomains, h]
  refine ⟨main, fun l t ht hn => main _ ?_⟩
  exact hn ▸ List.mem_map_of_mem normalizeToken ht

/-- Witness for C2: an `"all"` token in the middle of an array (mixed
with an invalid and a valid token, in uppercase with whitespace) and in
the middle of a comma-separated string both enable the full catalog. -/
theorem c2_witness :
    (" ALL ") ∈ ["a", " ALL ", "wiki"] ∧
    normalizeToken (" ALL ") = ALL_DOMAINS ∧
    ALL_DOMAINS ∈ parseDomainsInput (some (.str ("repositories,all,core"))) ∧
    (DomainsManager.construct (some (.arr ["a", " ALL ", "wiki"]))).enabledDomains
      = AVAILABLE_DOMAINS ∧
    (DomainsManager.construct (some (.str ("repositories,all,core")))).enabledDomains
      = AVAILABLE_DOMAINS :=
  ⟨by decide, by decide, by decide,
    c2_all_sentinel_enables_full_catalog.2 ["a", " ALL ", "wiki"] (" ALL ")
      (by decide) (by decide),
    c2_all_sentinel_enables_full_catalog.1 _ (by decide)⟩

/-- C3: a selector none of whose (normalized) tokens matches the catalog
or the `"all"` sentinel resolves to the full 9-member catalog, with
exactly one diagnostic per invalid token, each naming the token and the
full catalog (see `invalidDomainMessage`); resolution is a total
function, so it never throws and never terminates the process. -/
theorem c3_all_invalid_falls_back_to_full_catalog :
    ∀ sel : Option DomainsInput,
      (∀ t ∈ parseDomainsInput sel, t ∉ AVAILABLE_DOMAINS ∧ t ≠ ALL_DOMAINS) →
      (DomainsManager.construct sel).enabledDomains = AVAILABLE_DOMAINS ∧
      (DomainsManager.construct sel).diagnostics =
        (parseDomainsInput sel).map invalidDomainMessage ∧
      (DomainsManager.construct sel).diagnostics.length =
        (parseDomainsInput sel).length := by
  intro sel h
  by_cases hemp : (parseDomainsInput sel).isEmpty
  · have hnil : parseDomainsInput sel = [] := by simpa [List.isEmpty_iff] using hemp
    simp [DomainsManager.construct, hemp, hnil]
  · have hall : ALL_DOMAINS ∉ parseDomainsInput sel :=
      fun hm => (h _ hm).2 rfl
    have hfst : ((parseDomainsInput sel).foldl validateStep ([], [])).1 = [] := by
      rw [List.eq_nil_iff_forall_not_mem]
      intro x hx
      rcases (foldl_validateStep_fst_mem _ _ _ _).mp hx with hx' | ⟨hmem, hval⟩
      · simp at hx'
      · exact (h _ hmem).1 hval
    have hfilter : (parseDomainsInput sel).filter
        (fun t => !(AVAILABLE_DOMAINS.contains t)) = parseDomainsInput sel := by
      refine List.filter_eq_self.mpr (fun t ht => ?_)
      have : ¬ AVAILABLE_DOMAINS.contains t = true :=
        fun hct => (h _ ht).1 (contains_iff_mem.mp hct)
      simpa using this
    have hsnd := foldl_validateStep_snd (parseDomainsInput sel) [] []
    rw [hfilter] at hsnd
    simp [DomainsManager.construct, hemp, validateAndAddDomains, hall, hfst, hsnd]

/-- Witness for C3: the all-invalid array selector `["invalid1",
"invalid2"]` enables the full catalog and emits exactly two diagnostics,
one per invalid token. -/
theorem c3_witness :
    (∀ t ∈ parseDomainsInput (some (.arr ["invalid1", "invalid2"])),
      t ∉ AVAILABLE_DOMAINS ∧ t ≠ ALL_DOMAINS) ∧
    (DomainsManager.construct (some (.arr ["invalid1", "invalid2"]))).enabledDomains
      = AVAILABLE_DOMAINS ∧
    (DomainsManager.construct (some (.arr ["invalid1", "invalid2"]))).diagnostics
      = [invalidDomainMessage ("invalid1"), invalidDomainMessage ("invalid2")] ∧
    (DomainsManager.construct (some (.arr ["invalid1", "invalid2"]))).diagnostics.length
      = 2 :=
  ⟨by decide,
    (c3_all_invalid_falls_back_to_full_catalog _ (by decide)).1,
    ((c3_all_invalid_falls_back_to_full_catalog _ (by decide)).2.1).trans (by decide),
    ((c3_all_invalid_falls_back_to_full_catalog _ (by decide)).2.2).trans (by decide)⟩

/-- C4: for a selector without the `"all"` sentinel and with at least
one valid token, the Enabled Domain Set is duplicate-free and contains a
name exactly when it is one of the selector's normalized tokens and is
in the catalog.  When every token is valid this says the result is
exactly the deduplicated set of normalized tokens; in the mixed case it
says the result is exactly the valid tokens. -/
theorem c4_valid_tokens_resolve_exactly :
    ∀ sel : Option DomainsInput,
      ALL_DOMAINS ∉ parseDomainsInput sel →
      (∃ t, t ∈ parseDomainsInput sel ∧ t ∈ AVAILABLE_DOMAINS) →
      (DomainsManager.construct sel).enabledDomains.Nodup ∧
      (∀ d, d ∈ (DomainsManager.construct sel).enabledDomains ↔
        (d ∈ parseDomainsInput sel ∧ d ∈ AVAILABLE_DOMAINS)) := by
  intro sel hall ⟨t0, ht0, hv0⟩
  have hne : parseDomainsInput sel ≠ [] := List.ne_nil_of_mem ht0
  have hemp : (parseDomainsInput sel).isEmpty = false := by
    simpa [List.isEmpty_iff] using hne
  have hfstne : ((parseDomainsInput sel).foldl validateStep ([], [])).1 ≠ [] := by
    intro hx
    have : t0 ∈ ((parseDomainsInput sel).foldl validateStep ([], [])).1 :=
      (foldl_validateStep_fst_mem _ _ _ _).mpr (Or.inr ⟨ht0, hv0⟩)
    rw [hx] at this
    simp at this
  have hfstemp : ((parseDomainsInput sel).foldl validateStep ([], [])).1.isEmpty = false := by
    simpa [List.isEmpty_iff] using hfstne
  constructor
  · simp only [DomainsManager.construct, hemp, validateAndAddDomains]
    simp only [if_neg (fun hc => hall (contains_iff_mem.mp hc)), Bool.false_eq_true,
      if_false, hfstemp]
    simpa using foldl_validateStep_fst_nodup (parseDomainsInput sel) [] [] List.nodup_nil
  · intro d
    simp only [DomainsManager.construct, hemp, validateAndAddDomains]
    simp only [if_neg (fun hc => hall (contains_iff_mem.mp hc)), Bool.false_eq_true,
      if_false, hfstemp]
    simpa using foldl_validateStep_fst_mem (parseDomainsInput sel) [] [] d

/-- The concrete mixed selector used in the C4 witness. -/
def c4Selector : Option DomainsInput :=
  some (.arr [" REPOSITORIES ", "repositories", "bogus", "pipelines"])

/-- Witness for C4: an array with case/whitespace variation, a
duplicate, and one invalid token resolves to exactly
`{repositories, pipelines}`. -/
theorem c4_witness :
    ALL_DOMAINS ∉ parseDomainsInput c4Selector ∧
    (∃ t, t ∈ parseDomainsInput c4Selector ∧ t ∈ AVAILABLE_DOMAINS) ∧
    (("repositories") ∈ (DomainsManager.construct c4Selector).enabledDomains ↔
      (("repositories") ∈ parseDomainsInput c4Selector ∧
        ("repositories") ∈ AVAILABLE_DOMAINS)) ∧
    (("wiki") ∈ (DomainsManager.construct c4Selector).enabledDomains ↔
      (("wiki") ∈ parseDomainsInput c4Selector ∧ ("wiki") ∈ AVAILABLE_DOMAINS)) ∧
    (DomainsManager.construct c4Selector).enabledDomains.Nodup :=
  ⟨by decide, ⟨("repositories"), by decide, by decide⟩,
    (c4_valid_tokens_resolve_exactly c4Selector (by decide)
      ⟨("repositories"), by decide, by decide⟩).2 ("repositories"),
    (c4_valid_tokens_resolve_exactly c4Selector (by decide)
      ⟨("repositories"), by decide, by decide⟩).2 ("wiki"),
    (c4_valid_tokens_resolve_exactly c4Selector (by decide)
      ⟨("repositories"), by decide, by decide⟩).1⟩

/-! ### C5: `getEnabledDomains` returns a disconnected copy

JS `Set` objects are heap references.  To state instance-distinctness
and non-interference of mutation we model a heap of set objects: a cell
index is a JS object reference, `new Set(...)` is allocation at a fresh
index, and `Set.prototype.add` mutates one cell in place.  The manager's
internal set lives in its own cell; `getEnabledDomains` allocates a new
cell holding a copy of the internal contents, exactly as
`new Set(this.enabledDomains)` does. -/

/-- A heap of JS `Set` objects; a reference is an index into `cells`. -/
structure SetHeap where
  cells : List (List String)

/-- `new Set(contents)`: allocate a fresh cell, returning its reference. -/
def SetHeap.alloc (h : SetHeap) (contents : List String) : Nat × SetHeap :=
  (h.cells.length, ⟨h.cells ++ [contents]⟩)

/-- Dereference a set object. -/
def SetHeap.read (h : SetHeap) (r : Nat) : List String :=
  h.cells.getD r []

/-- `Set.prototype.add` on the object behind reference `r`. -/
def SetHeap.addElem (h : SetHeap) (r : Nat) (x : String) : SetHeap :=
  ⟨h.cells.set r (setAdd (h.cells.getD r []) x)⟩

/-- A constructed manager whose internal Enabled Domain Set lives in the
heap. -/
structure DomainsManagerRef where
  enabledLoc : Nat
  diagnostics : List String

/-- The `DomainsManager` constructor in the heap model: resolves the
selector and allocates the internal set object. -/
def DomainsManagerRef.construct (selector : Option DomainsInput) (h : SetHeap) :
    DomainsManagerRef × SetHeap :=
  let m := DomainsManager.construct selector
  let a := h.alloc m.enabledDomains
  (⟨a.1, m.diagnostics⟩, a.2)

/-- `isDomainEnabled` in the heap model: membership in the internal set
object. -/
def DomainsManagerRef.isDomainEnabled (m : DomainsManagerRef) (h : SetHeap)
    (name : String) : Bool :=
  (h.read m.enabledLoc).contains name

/-- `getEnabledDomains` in the heap model: `new Set(this.enabledDomains)`
— a fresh set object holding a copy of the internal contents. -/
def DomainsManagerRef.getEnabledDomains (m : DomainsManagerRef) (h : SetHeap) :
    Nat × SetHeap :=
  h.alloc (h.read m.enabledLoc)

/-- C5: starting from a manager constructed on an empty heap, two
`getEnabledDomains()` calls return references to two distinct, fresh set
objects, both distinct from the internal set object and with contents
equal to the internal set; adding an element to the first returned set
changes neither the second returned set, nor the internal set, nor the
result of `isDomainEnabled`, and a later `getEnabledDomains()` call
still returns the original contents. -/
theorem c5_getEnabledDomains_returns_disconnected_copy
    (selector : Option DomainsInput) (x : String) :
    let c := DomainsManagerRef.construct selector ⟨[]⟩
    let m := c.1
    let g1 := m.getEnabledDomains c.2
    let g2 := m.getEnabledDomains g1.2
    let internal := (DomainsManager.construct selector).enabledDomains
    g1.1 ≠ g2.1 ∧ g1.1 ≠ m.enabledLoc ∧ g2.1 ≠ m.enabledLoc ∧
    g2.2.read g1.1 = internal ∧ g2.2.read g2.1 = internal ∧
    (let h3 := g2.2.addElem g1.1 x
     h3.read m.enabledLoc = internal ∧
     h3.read g2.1 = internal ∧
     m.isDomainEnabled h3 x = internal.contains x ∧
     (let g4 := m.getEnabledDomains h3
      g4.2.read g4.1 = internal)) := by
  intro c m g1 g2 internal
  refine ⟨?_, ?_, ?_, ?_, ?_, ?_, ?_, ?_, ?_⟩ <;>
    simp [g1, g2, m, c, DomainsManagerRef.construct, DomainsManagerRef.getEnabledDomains,
      DomainsManagerRef.isDomainEnabled, SetHeap.alloc, SetHeap.read, SetHeap.addElem,
      internal, List.getD]

/-! ### C6: `parseDomainsInput` on a comma-joined string vs. the array -/

/-- The comma-separated string of a sequence of tokens
(JS `tokens.join(",")`). -/
def joinComma : List String → String
  | [] => ""
  | [t] => t
  | t :: u :: ts => t ++ "," ++ joinComma (u :: ts)

lemma data_joinComma_cons_cons (a b : String) (ts : List String) :
    (joinComma (a :: b :: ts)).data = a.data ++ ',' :: (joinComma (b :: ts)).data := by
  show (a ++ "," ++ joinComma (b :: ts)).data = _
  simp [String.data_append]

lemma splitOn_comma_joinComma (ts : List String) (hne : ts ≠ [])
    (h : ∀ t ∈ ts, ',' ∉ t.data) :
    (joinComma ts).data.splitOn ',' = ts.map String.data := by
  induction ts with
  | nil => exact absurd rfl hne
  | cons a ts ih =>
    cases ts with
    | nil =>
      show a.data.splitOnP (· == ',') = [a.data]
      refine List.splitOnP_eq_single _ _ (fun x hx => ?_)
      simp only [beq_iff_eq]
      intro hx'
      exact h a (List.mem_singleton_self a) (hx' ▸ hx)
    | cons b ts' =>
      rw [List.splitOn, data_joinComma_cons_cons]
      rw [List.splitOnP_first _ _
        (fun x hx => by
          simp only [beq_iff_eq]
          intro hx'
          exact h a (List.mem_cons_self _ _) (hx' ▸ hx)) ',' (by simp) _]
      have := ih (by simp) (fun t ht => h t (List.mem_cons_of_mem _ ht))
      rw [List.splitOn] at this
      rw [this]
      simp

lemma mem_comma_data_joinComma (a b : String) (ts : List String) :
    ',' ∈ (joinComma (a :: b :: ts)).data := by
  rw [data_joinComma_cons_cons]
  simp

/-- C6 counterexample: for the token sequence `["a", " "]` (second token
is whitespace only), `parseDomainsInput` on the comma-joined string
`"a, "` drops the empty piece and yields `["a"]`, while on the pre-split
array it yields `["a", ""]` — the two are not element-for-element equal,
refuting the claim as stated. -/
theorem c6_counterexample_empty_token_dropped_only_in_string_form :
    joinComma ["a", " "] = "a, " ∧
    parseDomainsInput (some (.str (joinComma ["a", " "]))) = ["a"] ∧
    parseDomainsInput (some (.arr ["a", " "])) = ["a", ""] ∧
    parseDomainsInput (some (.str (joinComma ["a", " "]))) ≠
      parseDomainsInput (some (.arr ["a", " "])) := by
  refine ⟨rfl, by decide, by decide, by decide⟩

/-- C6 (amended): for every non-empty sequence of tokens in which no
token contains a comma and every token is non-empty after trimming,
`parseDomainsInput` on the comma-joined string yields the same
element-for-element sequence as on the pre-split array, namely the
tokens each trimmed and lowercased.  (The counterexample forces the
proviso: the string form drops pieces that normalize to the empty
string, the array form keeps them, and the empty sequence joins to the
empty string which parses as `[""]`.) -/
theorem c6_parse_string_agrees_with_array (ts : List String) (hne : ts ≠ [])
    (hc : ∀ t ∈ ts, ',' ∉ t.data) (hnb : ∀ t ∈ ts, normalizeToken t ≠ "") :
    parseDomainsInput (some (.str (joinComma ts))) =
      parseDomainsInput (some (.arr ts)) ∧
    parseDomainsInput (some (.arr ts)) = ts.map normalizeToken := by
  refine ⟨?_, rfl⟩
  cases ts with
  | nil => exact absurd rfl hne
  | cons a ts' =>
    cases ts' with
    | nil =>
      have hinc : jsIncludesComma a = false := by
        have : ',' ∉ a.data := hc a (List.mem_singleton_self a)
        show (List.contains a.data ',') = false
        exact Bool.eq_false_iff.mpr (fun hcc => this (List.elem_iff.mp hcc))
      show parseDomainsInput (some (.str a)) = _
      simp [parseDomainsInput, hinc]
    | cons b ts'' =>
      have hinc : jsIncludesComma (joinComma (a :: b :: ts'')) = true :=
        List.elem_iff.mpr (mem_comma_data_joinComma a b ts'')
      have hsplit : jsSplitOnComma (joinComma (a :: b :: ts'')) = a :: b :: ts'' := by
        unfold jsSplitOnComma
        rw [splitOn_comma_joinComma _ (by simp) hc]
        rw [List.map_map]
        have : (String.mk ∘ String.data) = id := funext (fun s => rfl)
        rw [this, List.map_id]
      have hfil : ((a :: b :: ts'').map normalizeToken).filter (fun t => t ≠ "") =
          (a :: b :: ts'').map normalizeToken := by
        refine List.filter_eq_self.mpr (fun t ht => ?_)
        rcases List.mem_map.mp ht with ⟨u, hu, rfl⟩
        simpa using hnb u hu
      simp only [parseDomainsInput, hinc, if_true, hsplit, hfil]

/-- Witness for the amended C6: for the tokens
`["repositories", " ALL ", "core"]` both forms parse to
`["repositories", "all", "core"]`. -/
theorem c6_witness :
    (["repositories", " ALL ", "core"] : List String) ≠ [] ∧
    (∀ t ∈ (["repositories", " ALL ", "core"] : List String), ',' ∉ t.data) ∧
    (∀ t ∈ (["repositories", " ALL ", "core"] : List String), normalizeToken t ≠ "") ∧
    parseDomainsInput (some (.str (joinComma ["repositories", " ALL ", "core"]))) =
      parseDomainsInput (some (.arr ["repositories", " ALL ", "core"])) ∧
    parseDomainsInput (some (.arr ["repositories", " ALL ", "core"])) =
      ["repositories", " ALL ", "core"].map normalizeToken :=
  ⟨by decide, by decide, by decide,
    (c6_parse_string_agrees_with_array _ (by decide) (by decide) (by decide)).1,
    (c6_parse_string_agrees_with_array _ (by decide) (by decide) (by decide)).2⟩

/-! ### Result Envelope and pipelines tool handlers -/

/-- One `content` entry of a Result Envelope (`{ type: "text", text }`). -/
structure ToolTextContent where
  type : String
  text : String
deriving DecidableEq

/-- The Result Envelope returned by every tool handler:
`{ content, isError? }`.  `isError = none` models the field being
absent. -/
structure CallToolResult where
  content : List ToolTextContent
  isError : Option Bool
deriving DecidableEq

/-- JS truthiness of an optional boolean parameter (`!previewRun` is
true exactly when `previewRun` is `undefined` or `false`). -/
def jsTruthyBoolean : Option Bool → Bool
  | none => false
  | some b => b

/-- JS truthiness of an optional string parameter (`undefined` and the
empty string are falsy). -/
def jsTruthyString : Option String → Bool
  | none => false
  | some s => s ≠ ""

/-- A `{ version? }` build/container/package resource parameter of the
`pipelines_run_pipeline` schema. -/
structure VersionedResourceParam where
  version : Option String
deriving DecidableEq

/-- A pipeline resource parameter (`{ runId, version? }`). -/
structure PipelineResourceParam where
  runId : Nat
  version : Option String
deriving DecidableEq

/-- A repository resource parameter
(`{ refName, token?, tokenType?, version? }`). -/
structure RepositoryResourceParam where
  refName : String
  token : Option String
  tokenType : Option String
  version : Option String
deriving DecidableEq

/-- The `resources` dictionary of the `pipelines_run_pipeline` schema;
JS records keyed by resource name are embedded as association lists. -/
structure RunResourcesParam where
  builds : Option (List (String × VersionedResourceParam))
  containers : Option (List (String × VersionedResourceParam))
  packages : Option (List (String × VersionedResourceParam))
  pipelines : List (String × PipelineResourceParam)
  repositories : Option (List (String × RepositoryResourceParam))
deriving DecidableEq

/-- A `{ value?, isSecret? }` variable of the run request. -/
structure PipelineVariable where
  value : Option String
  isSecret : Option Bool
deriving DecidableEq

/-- The schema-validated input of the `pipelines_run_pipeline` tool. -/
structure RunPipelineInput where
  project : String
  pipelineId : Nat
  pipelineVersion : Option Nat
  previewRun : Option Bool
  resources : Option RunResourcesParam
  stagesToSkip : Option (List String)
  templateParameters : Option (List (String × String))
  runVariables : Option (List (String × PipelineVariable))
  yamlOverride : Option String
deriving DecidableEq

/-- The run request the handler builds and passes to
`pipelinesApi.runPipeline`.  The field `runVariables` embeds the source
field `variables`, whose name is reserved in Lean. -/
structure RunPipelineRequest where
  previewRun : Option Bool
  resources : Option RunResourcesParam
  stagesToSkip : Option (List String)
  templateParameters : Option (List (String × String))
  runVariables : Option (List (String × PipelineVariable))
  yamlOverride : Option String
deriving DecidableEq

/-- The backend operations the `pipelines_run_pipeline` handler can
invoke, in invocation order. -/
inductive PipelinesBackendCall where
  | getConnection
  | getPipelinesApi
  | runPipeline (request : RunPipelineRequest) (project : String)
      (pipelineId : Nat) (pipelineVersion : Option Nat)
deriving DecidableEq

/-- The pipeline run returned by `pipelinesApi.runPipeline`: the handler
inspects only its `id`; `json` stands for `JSON.stringify(pipelineRun,
null, 2)`, the serialized form of the full backend object. -/
structure PipelineRun where
  id : Option Nat
  json : String
deriving DecidableEq

deriving instance DecidableEq for Except

/-- The exact error message thrown when `yamlOverride` is supplied
without `previewRun`. -/
def yamlOverrideErrorMessage : String :=
  "Parameter 'yamlOverride' can only be specified together with parameter 'previewRun'."

/-- The `pipelines_run_pipeline` tool handler: validates the
`yamlOverride`/`previewRun` cross-field constraint (throwing before any
backend call), then obtains a connection, builds the run request, runs
the pipeline, and fails if the returned run has no id.  The second
component is the list of backend operations invoked. -/
def pipelines_run_pipeline_handler (i : RunPipelineInput) (backendRun : PipelineRun) :
    Except String CallToolResult × List PipelinesBackendCall :=
  if !(jsTruthyBoolean i.previewRun) && jsTruthyString i.yamlOverride then
    (Except.error yamlOverrideErrorMessage, [])
  else
    let runRequest : RunPipelineRequest :=
      ⟨i.previewRun, i.resources, i.stagesToSkip, i.templateParameters,
        i.runVariables, i.yamlOverride⟩
    let calls := [PipelinesBackendCall.getConnection, .getPipelinesApi,
      .runPipeline runRequest i.project i.pipelineId i.pipelineVersion]
    match backendRun.id with
    | none => (Except.error ("Failed to get build ID from pipeline run"), calls)
    | some _ => (Except.ok ⟨[⟨"text", backendRun.json⟩], none⟩, calls)

/-- The concrete input of the C7 counterexample: `previewRun: false` and
`yamlOverride` provided as the empty string. -/
def c7EmptyOverrideInput : RunPipelineInput :=
  ⟨"test-project", 123, none, some false, none, none, none, none, some ("")⟩

/-- C7 counterexample: with `yamlOverride` provided (as the empty
string, which JS truthiness treats as absent) and `previewRun: false`,
the handler does not throw the mutual-exclusion error and does invoke
the backend (connection, pipelines api, runPipeline), refuting the
claim as stated. -/
theorem c7_counterexample_empty_yaml_override_not_rejected :
    c7EmptyOverrideInput.yamlOverride ≠ none ∧
    c7EmptyOverrideInput.previewRun = some false ∧
    (pipelines_run_pipeline_handler c7EmptyOverrideInput ⟨some 1, "run"⟩).1 ≠
      Except.error yamlOverrideErrorMessage ∧
    (pipelines_run_pipeline_handler c7EmptyOverrideInput ⟨some 1, "run"⟩).2 ≠ [] := by
  refine ⟨by decide, rfl, by decide, by decide⟩

/-- C7 (amended): whenever `yamlOverride` is provided as a non-empty
string and `previewRun` is absent or `false`, the handler throws exactly
`yamlOverrideErrorMessage` and invokes no backend operation (in
particular, no connection is obtained). -/
theorem c7_yaml_override_requires_preview_run
    (i : RunPipelineInput) (r : PipelineRun)
    (hp : i.previewRun = none ∨ i.previewRun = some false)
    (hy : i.yamlOverride ≠ none) (hye : i.yamlOverride ≠ some ("")) :
    pipelines_run_pipeline_handler i r = (Except.error yamlOverrideErrorMessage, []) := by
  have hb : jsTruthyBoolean i.previewRun = false := by
    rcases hp with hp | hp <;> simp [jsTruthyBoolean, hp]
  have hs : jsTruthyString i.yamlOverride = true := by
    cases hyv : i.yamlOverride with
    | none => exact absurd hyv hy
    | some y =>
      have : y ≠ "" := fun he => hye (by rw [hyv, he])
      simp [jsTruthyString, this]
  simp [pipelines_run_pipeline_handler, hb, hs]

/-- Witness for the amended C7: the input of the repository's own test
(`previewRun: false`, `yamlOverride: "some yaml"`). -/
theorem c7_witness :
    ((⟨"test-project", 123, none, some false, none, none, none, none,
        some ("some yaml")⟩ : RunPipelineInput).previewRun = none ∨
      (⟨"test-project", 123, none, some false, none, none, none, none,
        some ("some yaml")⟩ : RunPipelineInput).previewRun = some false) ∧
    pipelines_run_pipeline_handler
      ⟨"test-project", 123, none, some false, none, none, none, none,
        some ("some yaml")⟩ ⟨some 1, "run"⟩ =
      (Except.error yamlOverrideErrorMessage, []) :=
  ⟨Or.inr rfl,
    c7_yaml_override_requires_preview_run _ _ (Or.inr rfl) (by decide) (by decide)⟩

/-! ### C8: `pipelines_update_build_stage` -/

/-- The `StageUpdateType` enum of the backend client library
(`Cancel = 0`, `Retry = 1`). -/
inductive StageUpdateType where
  | Cancel
  | Retry
deriving DecidableEq

/-- Modelled from the spec: `safeEnumConvert(StageUpdateType, status)`
from the repository's `utils.ts`, which is not among the sources at
hand; it maps an enum key string to the enum value, and to `undefined`
for an unknown key (the schema restricts `status` to the enum keys). -/
def safeStageUpdateConvert : String → Option StageUpdateType
  | "Cancel" => some StageUpdateType.Cancel
  | "Retry" => some StageUpdateType.Retry
  | _ => none

/-- The schema-validated input of the `pipelines_update_build_stage`
tool. -/
structure UpdateStageInput where
  project : String
  buildId : Nat
  stageName : String
  status : String
  forceRetryAllJobs : Bool
deriving DecidableEq

/-- The JSON body of the PATCH request
(`{ forceRetryAllJobs, state }`). -/
structure StageUpdateBody where
  forceRetryAllJobs : Bool
  state : Option StageUpdateType
deriving DecidableEq

/-- The PATCH request the handler issues via `fetch`. -/
structure StageUpdateFetchRequest where
  url : String
  method : String
  body : StageUpdateBody
deriving DecidableEq

/-- The observable part of the `fetch` response the handler consumes:
`ok`, `status`, and the text body (`response.text()`). -/
structure FetchResponse where
  ok : Bool
  status : Nat
  body : String
deriving DecidableEq

/-- One hexadecimal digit (lowercase), as produced by JS `\uXXXX`
escapes. -/
def hexDigit (n : Nat) : Char :=
  if n < 10 then Char.ofNat (48 + n) else Char.ofNat (87 + n)

/-- Four-hex-digit rendering of a code point below `0x10000`. -/
def hex4 (n : Nat) : String :=
  String.mk [hexDigit ((n / 4096) % 16), hexDigit ((n / 256) % 16),
    hexDigit ((n / 16) % 16), hexDigit (n % 16)]

/-- The escaping `JSON.stringify` applies to one character of a string
value. -/
def jsonEscapeChar (c : Char) : String :=
  if c = '"' then "\\\""
  else if c = '\\' then "\\\\"
  else if c = Char.ofNat 8 then "\\b"
  else if c = Char.ofNat 9 then "\\t"
  else if c = Char.ofNat 10 then "\\n"
  else if c = Char.ofNat 12 then "\\f"
  else if c = Char.ofNat 13 then "\\r"
  else if c.toNat < 32 then "\\u" ++ hex4 c.toNat
  else String.singleton c

/-- `JSON.stringify` of a string value (the indent argument is
irrelevant for a top-level scalar): the quoted, escaped string. -/
def jsonStringifyString (s : String) : String :=
  "\"" ++ String.join (s.data.map jsonEscapeChar) ++ "\""

/-- The `pipelines_update_build_stage` tool handler: builds the PATCH
endpoint from the connection's server url, the project, build id, stage
name and api version, issues the PATCH with the
`{ forceRetryAllJobs, state }` body, throws
`"Failed to update build stage: <status> <body>"` when the response is
not ok, and otherwise returns a Result Envelope whose text is
`JSON.stringify` of the response text, with no `isError` field.  The
second component is the request it issued. -/
def pipelines_update_build_stage_handler (serverUrl apiVersion : String)
    (i : UpdateStageInput) (resp : FetchResponse) :
    Except String CallToolResult × StageUpdateFetchRequest :=
  let endpoint := serverUrl ++ "/" ++ i.project ++ "/_apis/build/builds/" ++
    toString i.buildId ++ "/stages/" ++ i.stageName ++ "?api-version=" ++ apiVersion
  let req : StageUpdateFetchRequest :=
    ⟨endpoint, "PATCH", ⟨i.forceRetryAllJobs, safeStageUpdateConvert i.status⟩⟩
  if !resp.ok then
    (Except.error ("Failed to update build stage: " ++ toString resp.status ++
      " " ++ resp.body), req)
  else
    (Except.ok ⟨[⟨"text", jsonStringifyString resp.body⟩], none⟩, req)

/-- C8: when the PATCH response is not ok the handler throws (the error
propagates uncaught as an `Except.error`) with exactly the message
`"Failed to update build stage: <status> <response body>"`; when the
response is ok it returns a Result Envelope whose single text content is
the JSON-stringified response text and whose `isError` field is absent. -/
theorem c8_update_build_stage_error_propagation
    (serverUrl apiVersion : String) (i : UpdateStageInput) (resp : FetchResponse) :
    (resp.ok = false →
      (pipelines_update_build_stage_handler serverUrl apiVersion i resp).1 =
        Except.error ("Failed to update build stage: " ++ toString resp.status ++
          " " ++ resp.body)) ∧
    (resp.ok = true →
      (pipelines_update_build_stage_handler serverUrl apiVersion i resp).1 =
        Except.ok ⟨[⟨"text", jsonStringifyString resp.body⟩], none⟩) := by
  constructor
  · intro h
    simp [pipelines_update_build_stage_handler, h]
  · intro h
    simp [pipelines_update_build_stage_handler, h]

/-- Witness for C8: the repository's own test case — a 404 PATCH
response with body `"Build stage not found"` yields exactly
`"Failed to update build stage: 404 Build stage not found"`, and an ok
response yields an envelope with the stringified body and no `isError`
field. -/
theorem c8_witness :
    ((⟨false, 404, "Build stage not found"⟩ : FetchResponse).ok = false) ∧
    (pipelines_update_build_stage_handler "https://dev.azure.com/test-org" "7.2-preview.1"
        ⟨"test-project", 999, "NonExistentStage", "Retry", false⟩
        ⟨false, 404, "Build stage not found"⟩).1 =
      Except.error ("Failed to update build stage: 404 Build stage not found") ∧
    (pipelines_update_build_stage_handler "https://dev.azure.com/test-org" "7.2-preview.1"
        ⟨"test-project", 123, "Build", "Retry", true⟩
        ⟨true, 200, "ok-body"⟩).1 =
      Except.ok ⟨[⟨"text", "\"ok-body\""⟩], none⟩ :=
  ⟨rfl,
    ((c8_update_build_stage_error_propagation _ _ _ _).1 rfl).trans (by decide),
    ((c8_update_build_stage_error_propagation _ _ _ _).2 rfl).trans (by decide)⟩

/-! ### C9: `pipelines_get_build_log` -/

/-- The `TaskResult` enum of the backend client library
(`Succeeded = 0`, `SucceededWithIssues = 1`, `Failed = 2`,
`Canceled = 3`, `Skipped = 4`, `Abandoned = 5`). -/
inductive TaskResult where
  | Succeeded
  | SucceededWithIssues
  | Failed
  | Canceled
  | Skipped
  | Abandoned
deriving DecidableEq

/-- The `TimelineRecordState` enum of the backend client library
(`Pending = 0`, `InProgress = 1`, `Completed = 2`). -/
inductive TimelineRecordState where
  | Pending
  | InProgress
  | Completed
deriving DecidableEq

/-- The `log` reference of a timeline record (`{ id?: number }`). -/
structure BuildLogRef where
  id : Option Nat
deriving DecidableEq

/-- A build log as returned by `buildApi.getBuildLogs`; the handler
reads `id` and spreads the rest (represented by `url`) unchanged. -/
structure BuildLog where
  id : Option Nat
  url : Option String
deriving DecidableEq

/-- A timeline record as returned by `buildApi.getBuildTimeline`. -/
structure TimelineRecord where
  id : Option String
  name : Option String
  type : Option String
  state : Option TimelineRecordState
  result : Option TaskResult
  startTime : Option String
  finishTime : Option String
  log : Option BuildLogRef
  parentId : Option String
  order : Option Nat
deriving DecidableEq

/-- The timeline object (`{ records? }`). -/
structure Timeline where
  records : Option (List TimelineRecord)
deriving DecidableEq

/-- One entry of the `steps` array the handler builds from a
Stage/Job/Task record. -/
structure BuildStep where
  id : Option String
  name : Option String
  type : Option String
  state : Option TimelineRecordState
  result : Option TaskResult
  startTime : Option String
  finishTime : Option String
  logId : Option Nat
  parentId : Option String
  order : Option Nat
deriving DecidableEq

/-- The `stepInfo` object attached to an enhanced log. -/
structure EnhancedStepInfo where
  stepName : Option String
  stepType : Option String
  state : Option TimelineRecordState
  result : Option TaskResult
  startTime : Option String
  finishTime : Option String
deriving DecidableEq

/-- A log enhanced with its associated step information (`{ ...log,
stepInfo }`). -/
structure EnhancedLog where
  log : BuildLog
  stepInfo : Option EnhancedStepInfo
deriving DecidableEq

/-- The `summary` object of the handler's response. -/
structure BuildLogSummary where
  totalLogs : Nat
  totalSteps : Nat
  passedSteps : Nat
  failedSteps : Nat
  skippedSteps : Nat
  inProgressSteps : Nat
deriving DecidableEq

/-- The full response object of the `pipelines_get_build_log` handler. -/
structure GetBuildLogResponse where
  logs : List EnhancedLog
  steps : List BuildStep
  buildId : Nat
  summary : BuildLogSummary
deriving DecidableEq

/-- The key under which a record enters the log-to-step map: present
exactly when `record.log && record.log.id` is truthy in JS, i.e. when
the record has a log reference with a non-zero id. -/
def recordLogKey (r : TimelineRecord) : Option Nat :=
  match r.log with
  | some lr =>
      match lr.id with
      | some m => if m ≠ 0 then some m else none
      | none => none
  | none => none

/-- JS `Map.prototype.set` on an ordered association list: overwrites in
place, else appends. -/
def mapSet : List (Nat × TimelineRecord) → Nat → TimelineRecord →
    List (Nat × TimelineRecord)
  | [], k, v => [(k, v)]
  | e :: es, k, v => if e.1 = k then (k, v) :: es else e :: mapSet es k v

/-- JS `Map.prototype.get`. -/
def mapGet : List (Nat × TimelineRecord) → Nat → Option TimelineRecord
  | [], _ => none
  | e :: es, k => if e.1 = k then some e.2 else mapGet es k

/-- The record types collected into `steps`
(`record.type === 'Task' || record.type === 'Job' ||
record.type === 'Stage'`). -/
def isStepRecord (r : TimelineRecord) : Bool :=
  r.type == some ("Task") || r.type == some ("Job") || r.type == some ("Stage")

/-- The `steps` entry built from a record; `logId` uses optional
chaining (`record.log?.id`), so a zero id is kept here. -/
def mkStep (r : TimelineRecord) : BuildStep :=
  ⟨r.id, r.name, r.type, r.state, r.result, r.startTime, r.finishTime,
    r.log.bind BuildLogRef.id, r.parentId, r.order⟩

/-- The `stepInfo` fields projected from the associated record. -/
def mkStepInfo (r : TimelineRecord) : EnhancedStepInfo :=
  ⟨r.name, r.type, r.state, r.result, r.startTime, r.finishTime⟩

/-- One iteration of the handler's loop over the timeline records:
record the log-id-to-record association (for truthy log ids), and push a
`steps` entry for Stage/Job/Task records. -/
def processStep (acc : List (Nat × TimelineRecord) × List BuildStep)
    (r : TimelineRecord) : List (Nat × TimelineRecord) × List BuildStep :=
  let m := match recordLogKey r with
    | some k => mapSet acc.1 k r
    | none => acc.1
  let s := if isStepRecord r then acc.2 ++ [mkStep r] else acc.2
  (m, s)

/-- The records the handler's loop iterates over: the JS guard
`if (timeline && timeline.records)` skips the loop for a missing
timeline or missing records array. -/
def recsOfTimeline : Option Timeline → List TimelineRecord
  | some t => (match t.records with | some rs => rs | none => [])
  | none => []

/-- The `pipelines_get_build_log` tool handler after its two backend
calls (`getBuildLogs`, `getBuildTimeline`) resolve: builds the
log-to-step map and the steps list in one pass over the records,
enhances every log with the mapped step information (null when
unmatched), and derives the summary counts. -/
def pipelines_get_build_log_handler (project : String) (buildId : Nat)
    (logs : Option (List BuildLog)) (timeline : Option Timeline) :
    GetBuildLogResponse :=
  let recs := recsOfTimeline timeline
  let pr := recs.foldl processStep ([], [])
  let enhancedLogs := match logs with
    | some ls => ls.map (fun log => ⟨log,
        (match log.id with
         | some n => (mapGet pr.1 n).map mkStepInfo
         | none => none)⟩)
    | none => []
  ⟨enhancedLogs, pr.2, buildId,
    ⟨(match logs with | some ls => ls.length | none => 0),
      pr.2.length,
      (pr.2.filter (fun s => s.result = some TaskResult.Succeeded)).length,
      (pr.2.filter (fun s => s.result = some TaskResult.Failed)).length,
      (pr.2.filter (fun s => s.result = some TaskResult.Skipped)).length,
      (pr.2.filter (fun s => s.state = some TimelineRecordState.InProgress)).length⟩⟩

/-- Specification-side characterization of the log-id join: the log with
id `n` is associated with the last timeline record whose truthy log id
equals `n`, and with nothing when there is no such record or the log has
no truthy-joinable id. -/
def stepInfoJoinSpec (recs : List TimelineRecord) (log : BuildLog) :
    Option EnhancedStepInfo :=
  match log.id with
  | some n => ((recs.filter (fun r => recordLogKey r == some n)).getLast?).map mkStepInfo
  | none => none

lemma mapGet_mapSet_self (m : List (Nat × TimelineRecord)) (k : Nat)
    (v : TimelineRecord) : mapGet (mapSet m k v) k = some v := by
  induction m with
  | nil => simp [mapSet, mapGet]
  | cons e es ih =>
    by_cases h : e.1 = k
    · simp [mapSet, mapGet, h]
    · simp [mapSet, mapGet, h, ih]

lemma mapGet_mapSet_ne (m : List (Nat × TimelineRecord)) (k : Nat)
    (v : TimelineRecord) (n : Nat) (h : n ≠ k) :
    mapGet (mapSet m k v) n = mapGet m n := by
  induction m with
  | nil => simp [mapSet, mapGet, Ne.symm h]
  | cons e es ih =>
    by_cases he : e.1 = k
    · have hkn : ¬ (k = n) := fun hkn => h hkn.symm
      have hen : ¬ (e.1 = n) := fun hen => h (hen.symm.trans he)
      simp [mapSet, mapGet, he, hkn, hen]
    · by_cases hen : e.1 = n
      · simp [mapSet, mapGet, he, hen, h]
      · simp [mapSet, mapGet, he, hen, ih]

lemma fst_processStep (acc : List (Nat × TimelineRecord) × List BuildStep)
    (r : TimelineRecord) :
    (processStep acc r).1 = match recordLogKey r with
      | some k => mapSet acc.1 k r
      | none => acc.1 := rfl

lemma mapGet_foldl_processStep (recs : List TimelineRecord)
    (acc : List (Nat × TimelineRecord) × List BuildStep) (n : Nat) :
    mapGet (recs.foldl processStep acc).1 n =
      ((recs.filter (fun r => recordLogKey r == some n)).getLast?).elim
        (mapGet acc.1 n) some := by
  induction recs generalizing acc with
  | nil => simp
  | cons r rs ih =>
    rw [List.foldl_cons, ih]
    by_cases hp : (recordLogKey r == some n) = true
    · have hkey : recordLogKey r = some n := beq_iff_eq.mp hp
      have hfc : (r :: rs).filter (fun r => recordLogKey r == some n) =
          r :: rs.filter (fun r => recordLogKey r == some n) := by
        simp [List.filter_cons, hp]
      rw [hfc]
      have hm : (processStep acc r).1 = mapSet acc.1 n r := by
        rw [fst_processStep, hkey]
      cases hfl : rs.filter (fun r => recordLogKey r == some n) with
      | nil => simp [hfl, hm, mapGet_mapSet_self]
      | cons x xs =>
        rw [List.getLast?_cons_cons]
        cases hgl : (x :: xs).getLast? with
        | none => exact absurd (List.getLast?_eq_none_iff.mp hgl) (by simp)
        | some y => simp
    · have hget : mapGet (processStep acc r).1 n = mapGet acc.1 n := by
        rw [fst_processStep]
        cases hkey : recordLogKey r with
        | none => rfl
        | some k =>
          have hk : n ≠ k := by
            intro he
            exact hp (by simp [hkey, he])
          exact mapGet_mapSet_ne acc.1 k r n hk
      have hfc : (r :: rs).filter (fun r => recordLogKey r == some n) =
          rs.filter (fun r => recordLogKey r == some n) := by
        simp [List.filter_cons, hp]
      rw [hfc, hget]

lemma snd_foldl_processStep (recs : List TimelineRecord)
    (acc : List (Nat × TimelineRecord) × List BuildStep) :
    (recs.foldl processStep acc).2 = acc.2 ++ (recs.filter isStepRecord).map mkStep := by
  induction recs generalizing acc with
  | nil => simp
  | cons r rs ih =>
    rw [List.foldl_cons, ih]
    by_cases h : isStepRecord r
    · rw [List.filter_cons_of_pos h]
      simp [processStep, h]
    · rw [List.filter_cons_of_neg h]
      simp [processStep, h]

lemma mkStep_result (r : TimelineRecord) : (mkStep r).result = r.result := rfl

lemma mkStep_state (r : TimelineRecord) : (mkStep r).state = r.state := rfl

/-- C9 (amended): for every pair of backend results, each returned log
keeps its payload and carries exactly the spec-side join
`stepInfoJoinSpec` — the last timeline record whose truthy (non-zero)
log id equals the log's id, or `null` when there is none, with no log
dropped — and the summary counts equal the counts of Stage/Job/Task
records with the corresponding result (`Succeeded`/`Failed`/`Skipped`)
or state (`InProgress`). -/
theorem c9_build_log_join_and_summary (project : String) (buildId : Nat)
    (ls : List BuildLog) (timeline : Option Timeline) :
    let recs := recsOfTimeline timeline
    let R := pipelines_get_build_log_handler project buildId (some ls) timeline
    R.logs = ls.map (fun log => ⟨log, stepInfoJoinSpec recs log⟩) ∧
    R.logs.map EnhancedLog.log = ls ∧
    R.summary.totalLogs = ls.length ∧
    R.summary.totalSteps = (recs.filter isStepRecord).length ∧
    R.summary.passedSteps = ((recs.filter isStepRecord).filter
      (fun r => r.result = some TaskResult.Succeeded)).length ∧
    R.summary.failedSteps = ((recs.filter isStepRecord).filter
      (fun r => r.result = some TaskResult.Failed)).length ∧
    R.summary.skippedSteps = ((recs.filter isStepRecord).filter
      (fun r => r.result = some TaskResult.Skipped)).length ∧
    R.summary.inProgressSteps = ((recs.filter isStepRecord).filter
      (fun r => r.state = some TimelineRecordState.InProgress)).length := by
  intro recs R
  have hsnd := snd_foldl_processStep (recsOfTimeline timeline) ([], [])
  rw [List.nil_append] at hsnd
  have hlogs : R.logs = ls.map (fun log => ⟨log, stepInfoJoinSpec recs log⟩) := by
    show (pipelines_get_build_log_handler project buildId (some ls) timeline).logs =
      ls.map (fun log => ⟨log, stepInfoJoinSpec (recsOfTimeline timeline) log⟩)
    simp only [pipelines_get_build_log_handler]
    refine List.map_congr_left (fun log _ => ?_)
    cases hid : log.id with
    | none => simp [stepInfoJoinSpec, hid]
    | some n =>
      have hget := mapGet_foldl_processStep (recsOfTimeline timeline) ([], []) n
      have hnil : mapGet ([] : List (Nat × TimelineRecord)) n = none := rfl
      rw [hnil] at hget
      simp only [hid, hget, stepInfoJoinSpec]
      cases ((recsOfTimeline timeline).filter
          (fun r => recordLogKey r == some n)).getLast? with
      | none => rfl
      | some y => rfl
  have hcount : ∀ p : BuildStep → Bool,
      ((pipelines_get_build_log_handler project buildId (some ls)
        timeline).steps.filter p).length =
      (((recsOfTimeline timeline).filter isStepRecord).filter (p ∘ mkStep)).length := by
    intro p
    show (((recsOfTimeline timeline).foldl processStep ([], [])).2.filter p).length = _
    rw [hsnd, List.filter_map, List.length_map]
  refine ⟨hlogs, ?_, rfl, ?_, ?_, ?_, ?_, ?_⟩
  · rw [hlogs, List.map_map]
    exact (List.map_congr_left (fun a _ => rfl)).trans (List.map_id ls)
  · show ((recsOfTimeline timeline).foldl processStep ([], [])).2.length = _
    rw [hsnd, List.length_map]
  · exact hcount (fun s => s.result = some TaskResult.Succeeded)
  · exact hcount (fun s => s.result = some TaskResult.Failed)
  · exact hcount (fun s => s.result = some TaskResult.Skipped)
  · exact hcount (fun s => s.state = some TimelineRecordState.InProgress)

/-- The concrete log of the C9 counterexample: a log whose `id` is `0`
(JS-falsy). -/
def c9Log : BuildLog := ⟨some 0, none⟩

/-- The concrete timeline record of the C9 counterexample: a completed,
succeeded Stage record whose log reference has id `0`, equal to
`c9Log.id`. -/
def c9Record : TimelineRecord :=
  ⟨some ("rec1"), some ("Build Stage"), some ("Stage"),
    some TimelineRecordState.Completed, some TaskResult.Succeeded,
    none, none, some ⟨some 0⟩, none, some 1⟩

/-- C9 counterexample: the timeline record's log id equals the log's id
(both are `0`), yet the returned log's `stepInfo` is `null` — the code's
JS-truthiness guard (`record.log && record.log.id`) drops the
association for id `0`, refuting the claim as stated. -/
theorem c9_counterexample_zero_log_id_not_joined :
    c9Record.log.map BuildLogRef.id = some c9Log.id ∧
    c9Log.id = some 0 ∧
    (pipelines_get_build_log_handler "p" 1 (some [c9Log])
        (some ⟨some [c9Record]⟩)).logs.map EnhancedLog.stepInfo = [none] ∧
    (pipelines_get_build_log_handler "p" 1 (some [c9Log])
        (some ⟨some [c9Record]⟩)).logs.map EnhancedLog.log = [c9Log] := by
  refine ⟨rfl, rfl, by decide, by decide⟩

/-! ### C10: `repo_update_pull_request` -/

/-- The `status` argument of the tool schema
(`z.enum(["Active", "Abandoned"])`). -/
inductive PullRequestStatusArg where
  | Active
  | Abandoned
deriving DecidableEq

/-- `PullRequestStatus` values of the backend client library:
`Active = 1`, `Abandoned = 2` (`status === "Active" ?
PullRequestStatus.Active.valueOf() :
PullRequestStatus.Abandoned.valueOf()`). -/
def pullRequestStatusValue : PullRequestStatusArg → Nat
  | PullRequestStatusArg.Active => 1
  | PullRequestStatusArg.Abandoned => 2

/-- The schema-validated input of the `repo_update_pull_request` tool. -/
structure UpdatePullRequestInput where
  repositoryId : String
  pullRequestId : Nat
  title : Option String
  description : Option String
  isDraft : Option Bool
  targetRefName : Option String
  status : Option PullRequestStatusArg
deriving DecidableEq

/-- The update object the handler builds with only the provided fields;
a `none` field models the key being absent from the JS object. -/
structure PullRequestUpdateRequest where
  title : Option String
  description : Option String
  isDraft : Option Bool
  targetRefName : Option String
  status : Option Nat
deriving DecidableEq

/-- `Object.keys(updateRequest).length`: the number of fields present. -/
def PullRequestUpdateRequest.keysCount (r : PullRequestUpdateRequest) : Nat :=
  (if r.title.isSome then 1 else 0) + (if r.description.isSome then 1 else 0) +
  (if r.isDraft.isSome then 1 else 0) + (if r.targetRefName.isSome then 1 else 0) +
  (if r.status.isSome then 1 else 0)

/-- The backend operations the `repo_update_pull_request` handler can
invoke, in invocation order. -/
inductive RepoBackendCall where
  | getConnection
  | getGitApi
  | updatePullRequest (request : PullRequestUpdateRequest)
      (repositoryId : String) (pullRequestId : Nat)
deriving DecidableEq

/-- Whether a backend call is the state-changing `updatePullRequest`
operation. -/
def RepoBackendCall.isUpdate : RepoBackendCall → Bool
  | RepoBackendCall.updatePullRequest _ _ _ => true
  | _ => false

/-- The exact message of the no-fields error envelope. -/
def updatePullRequestNoFieldsMessage : String :=
  "Error: At least one field (title, description, isDraft, targetRefName, or status) must be provided for update."

/-- The `repo_update_pull_request` tool handler: obtains the connection
and git api, builds the update object from the provided fields, returns
a caught `isError: true` envelope when no field was provided (without
calling `updatePullRequest`), and otherwise updates the pull request and
returns its serialized form (`backendJson` stands for
`JSON.stringify(updatedPullRequest, null, 2)`).  The second component is
the list of backend operations invoked. -/
def repo_update_pull_request_handler (i : UpdatePullRequestInput)
    (backendJson : String) : CallToolResult × List RepoBackendCall :=
  let updateRequest : PullRequestUpdateRequest :=
    ⟨i.title, i.description, i.isDraft, i.targetRefName,
      i.status.map pullRequestStatusValue⟩
  if updateRequest.keysCount = 0 then
    (⟨[⟨"text", updatePullRequestNoFieldsMessage⟩], some true⟩,
      [RepoBackendCall.getConnection, RepoBackendCall.getGitApi])
  else
    (⟨[⟨"text", backendJson⟩], none⟩,
      [RepoBackendCall.getConnection, RepoBackendCall.getGitApi,
        RepoBackendCall.updatePullRequest updateRequest i.repositoryId i.pullRequestId])

/-- C10: when none of `title`, `description`, `isDraft`,
`targetRefName`, `status` is provided, the handler returns a caught
Result Envelope with `isError: true` and the exact no-fields message,
and the backend `updatePullRequest` operation is never invoked, so
remote state is unchanged on this path. -/
theorem c10_update_pull_request_requires_a_field
    (i : UpdatePullRequestInput) (backendJson : String)
    (ht : i.title = none) (hd : i.description = none) (hi : i.isDraft = none)
    (hr : i.targetRefName = none) (hs : i.status = none) :
    repo_update_pull_request_handler i backendJson =
      (⟨[⟨"text", updatePullRequestNoFieldsMessage⟩], some true⟩,
        [RepoBackendCall.getConnection, RepoBackendCall.getGitApi]) ∧
    (repo_update_pull_request_handler i backendJson).2.all
      (fun c => !c.isUpdate) = true := by
  have h : repo_update_pull_request_handler i backendJson =
      (⟨[⟨"text", updatePullRequestNoFieldsMessage⟩], some true⟩,
        [RepoBackendCall.getConnection, RepoBackendCall.getGitApi]) := by
    simp [repo_update_pull_request_handler, PullRequestUpdateRequest.keysCount,
      ht, hd, hi, hr, hs]
  exact ⟨h, by rw [h]; rfl⟩

/-- Witness for C10: the concrete empty update — all five optional
fields absent — yields the error envelope and no `updatePullRequest`
call. -/
theorem c10_witness :
    repo_update_pull_request_handler
        ⟨"repo-1", 42, none, none, none, none, none⟩ "unused" =
      (⟨[⟨"text", updatePullRequestNoFieldsMessage⟩], some true⟩,
        [RepoBackendCall.getConnection, RepoBackendCall.getGitApi]) ∧
    (repo_update_pull_request_handler
        ⟨"repo-1", 42, none, none, none, none, none⟩ "unused").2.all
      (fun c => !c.isUpdate) = true :=
  c10_update_pull_request_requires_a_field
    ⟨"repo-1", 42, none, none, none, none, none⟩ "unused" rfl rfl rfl rfl rfl
